import Mathlib

/-!
Shallow embedding of the `errors` Go package (latest revision: `error.go`,
`behaviors.go`): wrapped errors with a mutable metadata store, compound
errors as ordered collections of wrapped errors, behaviors applied at wrap
time, and the Wrap/Append/Split/Unwrap/Equals operations.

Pointers to `wrappedError` instances are modelled as natural-number heap
addresses; the heap is an association list (most recent binding wins), and
each operation threads the state explicitly.  Panics are modelled with an
`Except` result whose error carries the panic payload.  The stack-trace
capture primitive (`runtime.Callers`) is out of scope of the spec, so the
frames it would capture at a given call are passed in as an opaque list.
-/

namespace GoErrors

/-- A plain (non-wrapped, non-compound) Go error: identified by `id`
(modelling pointer identity of values such as those built by
`fmt.Errorf`), with its `Error()` message string. -/
structure BaseErr where
  id : Nat
  msg : String
deriving DecidableEq, Repr

/-- Metadata-store keys: the library namespaces built-in behaviors by the
reflected identity of their constructor functions (`reflect.ValueOf(Callers)`
etc.); user code can supply its own keys. -/
inductive MetaKey where
  | callersKey
  | prefixKey
  | publicMessageKey
  | httpStatusKey
  | userKey (k : Nat)
deriving DecidableEq, Repr

/-- Metadata-store values: a captured stack trace (`[]uintptr`, frames
opaque), a string (prefix or public message), an int (HTTP status), or an
arbitrary user value. -/
inductive MetaVal where
  | callersVal (frames : List Nat)
  | stringVal (s : String)
  | intVal (n : Int)
  | userVal (v : Nat)
deriving DecidableEq, Repr

/-- A Go `error` value as seen by this library: a plain error, a
`*wrappedError` (heap address), or a `wrappedErrors` slice of pointers to
wrapped errors. -/
inductive GoErr where
  | base (b : BaseErr)
  | wrapped (a : Nat)
  | compound (l : List Nat)
deriving DecidableEq, Repr

/-- Contents of one `wrappedError` struct: the inner cause `err` and the
`metadata` map (association list; the most recent entry for a key wins). -/
structure WEData where
  err : GoErr
  metadata : List (MetaKey × MetaVal)
deriving DecidableEq, Repr

/-- Program state: the heap of `wrappedError` allocations (most recent
binding for an address shadows older ones) and the next fresh address. -/
structure St where
  heap : List (Nat × WEData)
  next : Nat
deriving DecidableEq, Repr

/-- The state with no allocations. -/
def St.empty : St := ⟨[], 0⟩

/-- Read a heap address (first binding wins). -/
def lookupHeap : List (Nat × WEData) → Nat → Option WEData
  | [], _ => none
  | (a, d) :: rest, x => if a = x then some d else lookupHeap rest x

/-- Read a metadata key (first binding wins), `none` when absent —
modelling a Go map read returning `nil` / `ok == false`. -/
def lookupMeta : List (MetaKey × MetaVal) → MetaKey → Option MetaVal
  | [], _ => none
  | (k, v) :: rest, key => if k = key then some v else lookupMeta rest key

/-- Store `k ↦ v` in the metadata map of the wrapped error at address `a`
(no-op on a dangling address, which cannot occur for values built by the
library's operations). -/
def setMetaAt (st : St) (a : Nat) (k : MetaKey) (v : MetaVal) : St :=
  match lookupHeap st.heap a with
  | some d => ⟨(a, ⟨d.err, (k, v) :: d.metadata⟩) :: st.heap, st.next⟩
  | none => st

/-- Read key `k` of the metadata map of the wrapped error at address `a`. -/
def getMetaAt (st : St) (a : Nat) (k : MetaKey) : Option MetaVal :=
  match lookupHeap st.heap a with
  | some d => lookupMeta d.metadata k
  | none => none

/-- `GetMetadata` (behaviors.go): on a `*wrappedError` a plain map read; on
a `wrappedErrors` a scan from the last element backward returning the first
present value; `nil` (`none`) on any other shape. -/
def GetMetadata (st : St) (e : GoErr) (k : MetaKey) : Option MetaVal :=
  match e with
  | .wrapped a => getMetaAt st a k
  | .compound l => l.reverse.findSome? (fun a => getMetaAt st a k)
  | .base _ => none

/-- `GetCallers` (behaviors.go): the stored stack trace, `nil` (`none`)
when no `[]uintptr` value is stored under the callers key. -/
def GetCallers (st : St) (e : GoErr) : Option (List Nat) :=
  match GetMetadata st e .callersKey with
  | some (.callersVal cs) => some cs
  | _ => none

/-- `GetPrefix` (behaviors.go): the stored computed prefix, `""` when no
string is stored under the prefix key. -/
def GetPrefixStr (st : St) (e : GoErr) : String :=
  match GetMetadata st e .prefixKey with
  | some (.stringVal s) => s
  | _ => ""

/-- `GetHTTPStatus` (behaviors.go, HTTP-status revision): the stored
status, `0` when no int is stored under the HTTP-status key. -/
def GetHTTPStatus (st : St) (e : GoErr) : Int :=
  match GetMetadata st e .httpStatusKey with
  | some (.intVal n) => n
  | _ => 0

/-- Defunctionalized `Behavior` values (behaviors.go): Metadata, Callers,
Skip, Prefix (with its format arguments already rendered), PublicMessage,
HTTPStatus. -/
inductive Behavior where
  | metadataB (k : MetaKey) (v : MetaVal)
  | callersB
  | skipB (n : Nat)
  | prefixStr (p : String)
  | publicMessageB (m : String)
  | httpStatusB (n : Int)
deriving DecidableEq, Repr

/-- Apply one behavior to the wrapped error at address `a`.  `stack` is the
frame list `runtime.Callers(2, ...)` would capture at this point;
`doubleWrap` is the re-entry flag passed by the wrap operations. -/
def applyBehavior (stack : List Nat) (b : Behavior) (doubleWrap : Bool) (a : Nat) (st : St) : St :=
  match b with
  | .metadataB k v => setMetaAt st a k v
  | .callersB =>
    match GetCallers st (.wrapped a) with
    | some _ => st
    | none => setMetaAt st a .callersKey (.callersVal stack)
  | .skipB n =>
    match GetCallers st (.wrapped a) with
    | some cs =>
      if !doubleWrap && decide (n < cs.length) then
        setMetaAt st a .callersKey (.callersVal (cs.drop n))
      else st
    | none => st
  | .prefixStr p =>
    setMetaAt st a .prefixKey (.stringVal (p ++ ": " ++ GetPrefixStr st (.wrapped a)))
  | .publicMessageB m => setMetaAt st a .publicMessageKey (.stringVal m)
  | .httpStatusB n => setMetaAt st a .httpStatusKey (.intVal n)

/-- `Behaviors` combinator: apply each behavior in order to the same target
and re-entry flag. -/
def applyBehaviors (stack : List Nat) (doubleWrap : Bool) (a : Nat) (bs : List Behavior) (st : St) : St :=
  bs.foldl (fun s b => applyBehavior stack b doubleWrap a s) st

/-- A Go panic payload: a sentinel string (`panic("nil error")`), a runtime
index-out-of-range fault, a failed type assertion, or a wrapped error
raised by a Must-variant. -/
inductive Panic where
  | sentinel (s : String)
  | indexOutOfRange
  | typeAssertion
  | wrappedPanic (e : GoErr)
deriving DecidableEq, Repr

/-- `Wrap` (error.go): panics `"nil error"` on nil; prepends
`Callers(), Skip(2)` to the behaviors; re-applies behaviors in place
(re-entry flag true) on an already-wrapped error or on the last element of
a compound error (faulting on an empty one); otherwise allocates a fresh
wrapped error around the argument with an empty metadata map and applies
the behaviors with re-entry flag false. -/
def Wrap (stack : List Nat) (err : Option GoErr) (behaviors : List Behavior) (st : St) :
    Except Panic (GoErr × St) :=
  match err with
  | none => .error (.sentinel "nil error")
  | some e =>
    let bs := Behavior.callersB :: Behavior.skipB 2 :: behaviors
    match e with
    | .wrapped a => .ok (.wrapped a, applyBehaviors stack true a bs st)
    | .compound l =>
      match l.getLast? with
      | none => .error .indexOutOfRange
      | some a => .ok (.compound l, applyBehaviors stack true a bs st)
    | .base b =>
      let a := st.next
      let st1 : St := ⟨(a, ⟨.base b, []⟩) :: st.heap, st.next + 1⟩
      .ok (.wrapped a, applyBehaviors stack false a bs st1)

/-- `MaybeWrap` (error.go): returns nil on a nil error; otherwise appends
one `Skip(1)` to the behaviors and delegates to `Wrap`. -/
def MaybeWrap (stack : List Nat) (err : Option GoErr) (behaviors : List Behavior) (st : St) :
    Except Panic (Option GoErr × St) :=
  match err with
  | none => .ok (none, st)
  | some e =>
    match Wrap stack (some e) (behaviors ++ [.skipB 1]) st with
    | .ok (g, st') => .ok (some g, st')
    | .error p => .error p

/-- `MustWrap` (error.go): always panics — with `"nil error"` on a nil
error, otherwise with the result of `Wrap` (behaviors plus `Skip(1)`).
It returns the panic payload together with the state at the panic. -/
def MustWrap (stack : List Nat) (err : Option GoErr) (behaviors : List Behavior) (st : St) :
    Panic × St :=
  match err with
  | none => (.sentinel "nil error", st)
  | some e =>
    match Wrap stack (some e) (behaviors ++ [.skipB 1]) st with
    | .ok (g, st') => (.wrappedPanic g, st')
    | .error p => (p, st)

/-- The first switch of `Append` (error.go): normalize `existingErr` into a
`wrappedErrors` element list, wrapping it first when it is a plain error
(the `Wrap(err).(*wrappedError)` type assertion cannot fail there). -/
def normalizeExisting (stack : List Nat) (ee : GoErr) (st : St) :
    Except Panic (List Nat × St) :=
  match ee with
  | .wrapped a => .ok ([a], st)
  | .compound l => .ok (l, st)
  | .base b =>
    match Wrap stack (some (.base b)) [] st with
    | .ok (.wrapped a, st') => .ok ([a], st')
    | .ok (_, _) => .error .typeAssertion
    | .error p => .error p

/-- `Append` (error.go): panics `"nil error"` on a nil `newErr`; behaves as
`Wrap newErr` when `existingErr` is nil; otherwise normalizes `existingErr`
into a `wrappedErrors` (wrapping plain errors) and appends `newErr` as one
element (wrapping a plain one) or, when `newErr` is itself compound, all
its elements. -/
def Append (stack : List Nat) (existingErr newErr : Option GoErr) (st : St) :
    Except Panic (GoErr × St) :=
  match newErr with
  | none => .error (.sentinel "nil error")
  | some ne =>
    match existingErr with
    | none => Wrap stack (some ne) [] st
    | some ee =>
      match normalizeExisting stack ee st with
      | .error p => .error p
      | .ok (wErrs, st1) =>
        match ne with
        | .wrapped a => .ok (.compound (wErrs ++ [a]), st1)
        | .compound l2 => .ok (.compound (wErrs ++ l2), st1)
        | .base b =>
          match Wrap stack (some (.base b)) [] st1 with
          | .ok (.wrapped a, st2) => .ok (.compound (wErrs ++ [a]), st2)
          | .ok (_, _) => .error .typeAssertion
          | .error p => .error p

/-- `Split` (error.go): panics `"nil error"` on nil; returns the elements
of a compound error in order; returns any other error as the single
element of the result. -/
def Split (err : Option GoErr) : Except Panic (List GoErr) :=
  match err with
  | none => .error (.sentinel "nil error")
  | some (.wrapped a) => .ok [.wrapped a]
  | some (.compound l) => .ok (l.map .wrapped)
  | some e => .ok [e]

/-- `Unwrap` (error.go): the inner cause of a wrapped error; for a
compound error, `Unwrap` of its last element; otherwise the error itself.
The dangling-address and empty-compound branches return the input — in Go
they would be a dereference of a live pointer (never dangling here) and an
index fault on a value the library never produces. -/
def Unwrap (st : St) : GoErr → GoErr
  | .wrapped a =>
    match lookupHeap st.heap a with
    | some d => d.err
    | none => .wrapped a
  | .compound l =>
    match l.getLast? with
    | some a =>
      match lookupHeap st.heap a with
      | some d => d.err
      | none => .wrapped a
    | none => .compound l
  | e => e

/-- The non-compound arm of `Equals` (error.go): unwrap the error, then
test Go `==` against each cause after unwrapping it (element-wise when the
cause is compound). -/
def equalsSingle (st : St) (e0 : GoErr) (causes : List GoErr) : Bool :=
  let u := Unwrap st e0
  causes.any (fun c =>
    match c with
    | .compound l => l.any (fun a => decide (u = Unwrap st (.wrapped a)))
    | c => decide (u = Unwrap st c))

/-- `Equals` (error.go): a compound error equals the causes when any of its
elements does; any other error is unwrapped and compared. -/
def Equals (st : St) (e : GoErr) (causes : List GoErr) : Bool :=
  match e with
  | .compound l => l.any (fun a => equalsSingle st (.wrapped a) causes)
  | e => equalsSingle st e causes

/-- `Error()` rendering with explicit recursion fuel (the heap is not a
structurally-recursive object): a plain error renders its message; a
wrapped error renders `computed-prefix ++ inner-message`; a compound error
renders `"multiple errors: "` with elements joined by `" · "`.  In every
state the library can produce, the inner cause of a wrapped error is a
plain error, so fuel 2 renders every value exactly. -/
def errorMsg : Nat → St → GoErr → String
  | _, _, .base b => b.msg
  | fuel + 1, st, .wrapped a =>
    GetPrefixStr st (.wrapped a) ++
      (match lookupHeap st.heap a with
       | some d => errorMsg fuel st d.err
       | none => "")
  | fuel + 1, st, .compound l =>
    "multiple errors: " ++ String.intercalate " · " (l.map (fun a => errorMsg fuel st (.wrapped a)))
  | 0, _, _ => ""

/-- `Error()` of a Go error value in a given state. -/
def ErrorStr (st : St) (e : GoErr) : String := errorMsg 2 st e

/-- Whether a Go error value is a plain error. -/
def GoErr.isBase : GoErr → Bool
  | .base _ => true
  | _ => false

/-- Every allocated wrapped error has a plain inner cause — true of every
state the library's operations can produce, since `Wrap` only allocates
around a value that is neither wrapped nor compound. -/
def WFb (st : St) : Bool := st.heap.all (fun p => p.2.err.isBase)

/-- The inner cause stored at a heap address. -/
def lookupErr (st : St) (a : Nat) : Option GoErr := (lookupHeap st.heap a).map WEData.err

/-- `err := Append(nil, e1); err = Append(err, e2); ...` — building an
error by appending each plain error of the list in turn. -/
def appendAll (stack : List Nat) (cur : Option GoErr) (st : St) : List BaseErr → Except Panic (Option GoErr × St)
  | [] => .ok (cur, st)
  | b :: rest =>
    match Append stack cur (some (.base b)) st with
    | .ok (g, st') => appendAll stack (some g) st' rest
    | .error p => .error p

/-- Extract the resulting state of a non-panicking operation. -/
def stOf (r : Except Panic (GoErr × St)) : St :=
  match r with
  | .ok (_, s) => s
  | .error _ => St.empty

/-- Extract the resulting error value of a non-panicking operation. -/
def errOf (r : Except Panic (GoErr × St)) : GoErr :=
  match r with
  | .ok (g, _) => g
  | .error _ => .base ⟨0, ""⟩

/-- State of a result of `appendAll`. -/
def stOfA (r : Except Panic (Option GoErr × St)) : St :=
  match r with
  | .ok (_, s) => s
  | .error _ => St.empty

/-- The inner cause of the wrapped error at `a` is plain (or `a` is
dangling): enough fuel-stability for exact message rendering. -/
def innerOk (st : St) (a : Nat) : Bool :=
  match lookupHeap st.heap a with
  | some d => d.err.isBase
  | none => true

/-- Behaviors that do not write the callers key directly (every public
behavior except a raw `Metadata` on the callers key, which is the
library-internal storage channel of `Callers`/`Skip`). -/
def callersSafe : Behavior → Bool
  | .metadataB k _ => decide (k ≠ MetaKey.callersKey)
  | _ => true

/-! ### Concrete scenarios (mirroring the repository's tests) -/

/-- `Append(nil, Errorf("first error"))` then `Append(·, Errorf("second error"))`. -/
def c3res : Except Panic (Option GoErr × St) :=
  appendAll [] none St.empty [⟨0, "first error"⟩, ⟨1, "second error"⟩]

/-- A base error wrapped with `Prefix("other error")`. -/
def c4w1 : Except Panic (GoErr × St) :=
  Wrap [] (some (.base ⟨0, "test error"⟩)) [.prefixStr "other error"] St.empty

/-- Re-wrapping the already-wrapped `c4w1` result with no extra behaviors. -/
def c4w2 : Except Panic (GoErr × St) :=
  Wrap [] (some (GoErr.wrapped 0)) [] (stOf c4w1)

/-- `Wrap(Errorf("test error"), Prefix("other error"))`. -/
def c5w1 : Except Panic (GoErr × St) :=
  Wrap [] (some (.base ⟨0, "test error"⟩)) [.prefixStr "other error"] St.empty

/-- `Wrap(·, Prefix("next error"))` on the previous result. -/
def c5w2 : Except Panic (GoErr × St) :=
  Wrap [] (some (errOf c5w1)) [.prefixStr "next error"] (stOf c5w1)

/-- `Wrap(e1, HTTPStatus(400))`. -/
def c7w1 : Except Panic (GoErr × St) :=
  Wrap [] (some (.base ⟨0, "e1"⟩)) [.httpStatusB 400] St.empty

/-- `Wrap(e2, HTTPStatus(500))`. -/
def c7w2 : Except Panic (GoErr × St) :=
  Wrap [] (some (.base ⟨1, "e2"⟩)) [.httpStatusB 500] (stOf c7w1)

/-- `Append` of the two wrapped errors above. -/
def c7app : Except Panic (GoErr × St) :=
  Append [] (some (GoErr.wrapped 0)) (some (GoErr.wrapped 1)) (stOf c7w2)

/-- A third wrapped error carrying no HTTP status. -/
def c7w3 : Except Panic (GoErr × St) :=
  Wrap [] (some (.base ⟨2, "e3"⟩)) [] (stOf c7w2)

/-- A plain error wrapped with the exact behavior list `MaybeWrap` passes on. -/
def c2wit : Except Panic (GoErr × St) :=
  Wrap [] (some (GoErr.base ⟨0, "m"⟩)) ([] ++ [.skipB 1]) St.empty

/-- A plain error wrapped with no extra behaviors. -/
def c4wit : Except Panic (GoErr × St) :=
  Wrap [] (some (GoErr.base ⟨0, "m"⟩)) [] St.empty

/-- Base wrap for the prefix-composition witness. -/
def c5wit0 : Except Panic (GoErr × St) :=
  Wrap [] (some (GoErr.base ⟨0, "m"⟩)) [] St.empty

/-- First prefix application for the witness. -/
def c5wit1 : Except Panic (GoErr × St) :=
  Wrap [] (some (GoErr.wrapped 0)) [.prefixStr "p1"] (stOf c5wit0)

/-- Second prefix application for the witness. -/
def c5wit2 : Except Panic (GoErr × St) :=
  Wrap [] (some (GoErr.wrapped 0)) [.prefixStr "p2"] (stOf c5wit1)

/-- Base wrap for the re-wrap witness. -/
def c8wit0 : Except Panic (GoErr × St) :=
  Wrap [] (some (GoErr.base ⟨0, "m"⟩)) [] St.empty

/-- Base wrap for the equality witness. -/
def c9wit : Except Panic (GoErr × St) :=
  Wrap [] (some (GoErr.base ⟨1, "w"⟩)) [] St.empty

/-- Base wrap for the unwrap-identity witness. -/
def c10wit : Except Panic (GoErr × St) :=
  Wrap [] (some (GoErr.base ⟨2, "u"⟩)) [] St.empty

/-- The two base errors of the append/split witness. -/
def c6bs : List BaseErr := [⟨0, "first error"⟩, ⟨1, "second error"⟩]

/-! ### Basic lemmas about the heap and metadata store -/

theorem setMetaAt_next (st : St) (a : Nat) (k : MetaKey) (v : MetaVal) :
    (setMetaAt st a k v).next = st.next := by
  unfold setMetaAt
  split <;> rfl

theorem lookupErr_setMetaAt (st : St) (a : Nat) (k : MetaKey) (v : MetaVal) (x : Nat) :
    lookupErr (setMetaAt st a k v) x = lookupErr st x := by
  unfold lookupErr setMetaAt
  cases h : lookupHeap st.heap a with
  | none => rfl
  | some d =>
    by_cases hx : a = x
    · subst hx
      simp [lookupHeap, h]
    · simp [lookupHeap, hx]

theorem lookupHeap_setMetaAt_ne (st : St) (a : Nat) (k : MetaKey) (v : MetaVal) (x : Nat)
    (hx : x ≠ a) :
    lookupHeap (setMetaAt st a k v).heap x = lookupHeap st.heap x := by
  unfold setMetaAt
  cases h : lookupHeap st.heap a with
  | none => rfl
  | some d => simp [lookupHeap, if_neg (Ne.symm hx)]

theorem getMetaAt_setMetaAt_same (st : St) (a : Nat) (k : MetaKey) (v : MetaVal) (d : WEData)
    (h : lookupHeap st.heap a = some d) :
    getMetaAt (setMetaAt st a k v) a k = some v := by
  unfold getMetaAt setMetaAt
  rw [h]
  simp [lookupHeap, lookupMeta]

theorem getMetaAt_setMetaAt_key_ne (st : St) (a : Nat) (k k' : MetaKey) (v : MetaVal) (x : Nat)
    (hk : k' ≠ k) :
    getMetaAt (setMetaAt st a k v) x k' = getMetaAt st x k' := by
  unfold getMetaAt setMetaAt
  cases h : lookupHeap st.heap a with
  | none => rfl
  | some d =>
    by_cases hx : a = x
    · subst hx
      simp [lookupHeap, h, lookupMeta, if_neg (Ne.symm hk)]
    · simp [lookupHeap, if_neg hx]

theorem lookupHeap_mem {hp : List (Nat × WEData)} {x : Nat} {d : WEData}
    (h : lookupHeap hp x = some d) : (x, d) ∈ hp := by
  induction hp with
  | nil => simp [lookupHeap] at h
  | cons p rest ih =>
    obtain ⟨a, pd⟩ := p
    by_cases hax : a = x
    · subst hax
      simp [lookupHeap] at h
      subst h
      exact List.mem_cons_self _ _
    · simp [lookupHeap, hax] at h
      exact List.mem_cons_of_mem _ (ih h)

theorem WFb_lookup (st : St) (hw : WFb st = true) {a : Nat} {d : WEData}
    (h : lookupHeap st.heap a = some d) : d.err.isBase = true := by
  have hm := lookupHeap_mem h
  unfold WFb at hw
  rw [List.all_eq_true] at hw
  exact hw _ hm

theorem WFb_setMetaAt (st : St) (a : Nat) (k : MetaKey) (v : MetaVal)
    (hw : WFb st = true) : WFb (setMetaAt st a k v) = true := by
  unfold setMetaAt
  cases h : lookupHeap st.heap a with
  | none => exact hw
  | some d =>
    unfold WFb at hw ⊢
    rw [List.all_eq_true] at hw ⊢
    intro p hp
    rcases List.mem_cons.mp hp with rfl | hmem
    · have hbase : d.err.isBase = true := hw _ (lookupHeap_mem h)
      exact hbase
    · exact hw _ hmem

/-! ### Lemmas about behavior application -/

theorem applyBehavior_cases (stack : List Nat) (b : Behavior) (dw : Bool) (a : Nat) (st : St) :
    applyBehavior stack b dw a st = st ∨
    ∃ k v, applyBehavior stack b dw a st = setMetaAt st a k v := by
  cases b with
  | metadataB k v => exact Or.inr ⟨k, v, rfl⟩
  | callersB =>
    cases h : GetCallers st (.wrapped a) with
    | some cs => left; simp [applyBehavior, h]
    | none =>
      right
      exact ⟨MetaKey.callersKey, MetaVal.callersVal stack, by simp [applyBehavior, h]⟩
  | skipB n =>
    cases h : GetCallers st (.wrapped a) with
    | none => left; simp [applyBehavior, h]
    | some cs =>
      cases hc : (!dw && decide (n < cs.length)) with
      | true =>
        right
        exact ⟨MetaKey.callersKey, MetaVal.callersVal (cs.drop n), by simp [applyBehavior, h, hc]⟩
      | false => left; simp [applyBehavior, h, hc]
  | prefixStr p => exact Or.inr ⟨_, _, rfl⟩
  | publicMessageB m => exact Or.inr ⟨_, _, rfl⟩
  | httpStatusB n => exact Or.inr ⟨_, _, rfl⟩

theorem applyBehavior_next (stack : List Nat) (b : Behavior) (dw : Bool) (a : Nat) (st : St) :
    (applyBehavior stack b dw a st).next = st.next := by
  rcases applyBehavior_cases stack b dw a st with h | ⟨k, v, h⟩
  · rw [h]
  · rw [h]; exact setMetaAt_next st a k v

theorem lookupErr_applyBehavior (stack : List Nat) (b : Behavior) (dw : Bool) (a : Nat) (st : St)
    (x : Nat) :
    lookupErr (applyBehavior stack b dw a st) x = lookupErr st x := by
  rcases applyBehavior_cases stack b dw a st with h | ⟨k, v, h⟩
  · rw [h]
  · rw [h]; exact lookupErr_setMetaAt st a k v x

theorem lookupHeap_applyBehavior_ne (stack : List Nat) (b : Behavior) (dw : Bool) (a : Nat)
    (st : St) (x : Nat) (hx : x ≠ a) :
    lookupHeap (applyBehavior stack b dw a st).heap x = lookupHeap st.heap x := by
  rcases applyBehavior_cases stack b dw a st with h | ⟨k, v, h⟩
  · rw [h]
  · rw [h]; exact lookupHeap_setMetaAt_ne st a k v x hx

theorem WFb_applyBehavior (stack : List Nat) (b : Behavior) (dw : Bool) (a : Nat) (st : St)
    (hw : WFb st = true) : WFb (applyBehavior stack b dw a st) = true := by
  rcases applyBehavior_cases stack b dw a st with h | ⟨k, v, h⟩
  · rw [h]; exact hw
  · rw [h]; exact WFb_setMetaAt st a k v hw

theorem applyBehaviors_cons (stack : List Nat) (dw : Bool) (a : Nat) (b : Behavior)
    (bs : List Behavior) (st : St) :
    applyBehaviors stack dw a (b :: bs) st =
      applyBehaviors stack dw a bs (applyBehavior stack b dw a st) := rfl

theorem applyBehaviors_next (stack : List Nat) (dw : Bool) (a : Nat) :
    ∀ (bs : List Behavior) (st : St), (applyBehaviors stack dw a bs st).next = st.next := by
  intro bs
  induction bs with
  | nil => intro st; rfl
  | cons b rest ih =>
    intro st
    rw [applyBehaviors_cons, ih, applyBehavior_next]

theorem lookupErr_applyBehaviors (stack : List Nat) (dw : Bool) (a : Nat) :
    ∀ (bs : List Behavior) (st : St) (x : Nat),
      lookupErr (applyBehaviors stack dw a bs st) x = lookupErr st x := by
  intro bs
  induction bs with
  | nil => intro st x; rfl
  | cons b rest ih =>
    intro st x
    rw [applyBehaviors_cons, ih, lookupErr_applyBehavior]

theorem lookupHeap_applyBehaviors_ne (stack : List Nat) (dw : Bool) (a : Nat) :
    ∀ (bs : List Behavior) (st : St) (x : Nat), x ≠ a →
      lookupHeap (applyBehaviors stack dw a bs st).heap x = lookupHeap st.heap x := by
  intro bs
  induction bs with
  | nil => intro st x _; rfl
  | cons b rest ih =>
    intro st x hx
    rw [applyBehaviors_cons, ih _ _ hx, lookupHeap_applyBehavior_ne _ _ _ _ _ _ hx]

theorem WFb_applyBehaviors (stack : List Nat) (dw : Bool) (a : Nat) :
    ∀ (bs : List Behavior) (st : St), WFb st = true →
      WFb (applyBehaviors stack dw a bs st) = true := by
  intro bs
  induction bs with
  | nil => intro st hw; exact hw
  | cons b rest ih =>
    intro st hw
    rw [applyBehaviors_cons]
    exact ih _ (WFb_applyBehavior _ _ _ _ _ hw)

theorem skipB_doubleWrap_id (stack : List Nat) (n : Nat) (a : Nat) (st : St) :
    applyBehavior stack (.skipB n) true a st = st := by
  cases h : GetCallers st (.wrapped a) with
  | none => simp [applyBehavior, h]
  | some cs => simp [applyBehavior, h]

theorem callersB_id_of_present (stack : List Nat) (dw : Bool) (a : Nat) (st : St) (cs : List Nat)
    (h : GetCallers st (.wrapped a) = some cs) :
    applyBehavior stack .callersB dw a st = st := by
  simp [applyBehavior, h]

theorem getMetaAt_callersB_ne (stack : List Nat) (dw : Bool) (a : Nat) (st : St) (x : Nat)
    (k : MetaKey) (hk : k ≠ MetaKey.callersKey) :
    getMetaAt (applyBehavior stack .callersB dw a st) x k = getMetaAt st x k := by
  cases h : GetCallers st (.wrapped a) with
  | some cs => rw [callersB_id_of_present stack dw a st cs h]
  | none =>
    have hb : applyBehavior stack .callersB dw a st =
        setMetaAt st a .callersKey (.callersVal stack) := by
      simp [applyBehavior, h]
    rw [hb]
    exact getMetaAt_setMetaAt_key_ne st a _ k _ x hk

theorem GetPrefixStr_wrapped (st : St) (a : Nat) :
    GetPrefixStr st (.wrapped a) =
      (match getMetaAt st a .prefixKey with
       | some (.stringVal s) => s
       | _ => "") := rfl

theorem GetCallers_wrapped (st : St) (a : Nat) :
    GetCallers st (.wrapped a) =
      (match getMetaAt st a .callersKey with
       | some (.callersVal cs) => some cs
       | _ => none) := rfl

/-! ### Specifications of the wrap and append operations -/

theorem Wrap_wrapped (stack : List Nat) (bs : List Behavior) (st : St) (a : Nat) :
    Wrap stack (some (.wrapped a)) bs st =
      .ok (.wrapped a, applyBehaviors stack true a (.callersB :: .skipB 2 :: bs) st) := rfl

theorem Wrap_base (stack : List Nat) (bs : List Behavior) (st : St) (b : BaseErr) :
    Wrap stack (some (.base b)) bs st =
      .ok (.wrapped st.next,
        applyBehaviors stack false st.next (.callersB :: .skipB 2 :: bs)
          ⟨(st.next, ⟨.base b, []⟩) :: st.heap, st.next + 1⟩) := rfl

theorem Wrap_base_spec (stack : List Nat) (bs : List Behavior) (st : St) (b : BaseErr) :
    ∃ st', Wrap stack (some (.base b)) bs st = .ok (.wrapped st.next, st') ∧
      st'.next = st.next + 1 ∧
      lookupErr st' st.next = some (.base b) ∧
      (∀ x, x ≠ st.next → lookupErr st' x = lookupErr st x) ∧
      (WFb st = true → WFb st' = true) := by
  refine ⟨_, Wrap_base stack bs st b, ?_, ?_, ?_, ?_⟩
  · rw [applyBehaviors_next]
  · rw [lookupErr_applyBehaviors]
    unfold lookupErr
    simp [lookupHeap]
  · intro x hx
    rw [lookupErr_applyBehaviors]
    unfold lookupErr
    simp [lookupHeap, if_neg (show ¬ st.next = x from fun h => hx h.symm)]
  · intro hw
    apply WFb_applyBehaviors
    unfold WFb at hw ⊢
    rw [List.all_eq_true] at hw ⊢
    intro p hp
    rcases List.mem_cons.mp hp with rfl | hmem
    · rfl
    · exact hw _ hmem

theorem Append_wrapped_base (stack : List Nat) (st : St) (a : Nat) (b : BaseErr) :
    ∃ st', Append stack (some (.wrapped a)) (some (.base b)) st =
        .ok (.compound [a, st.next], st') ∧
      st'.next = st.next + 1 ∧
      lookupErr st' st.next = some (.base b) ∧
      (∀ x, x ≠ st.next → lookupErr st' x = lookupErr st x) ∧
      (WFb st = true → WFb st' = true) := by
  obtain ⟨st', hW, h1, h2, h3, h4⟩ := Wrap_base_spec stack [] st b
  refine ⟨st', ?_, h1, h2, h3, h4⟩
  have hred : Append stack (some (.wrapped a)) (some (.base b)) st =
      (match Wrap stack (some (.base b)) [] st with
       | .ok (.wrapped a2, st2) => .ok (.compound ([a] ++ [a2]), st2)
       | .ok (_, _) => .error .typeAssertion
       | .error p => .error p) := rfl
  rw [hred, hW]
  rfl

theorem Append_compound_base (stack : List Nat) (st : St) (l : List Nat) (b : BaseErr) :
    ∃ st', Append stack (some (.compound l)) (some (.base b)) st =
        .ok (.compound (l ++ [st.next]), st') ∧
      st'.next = st.next + 1 ∧
      lookupErr st' st.next = some (.base b) ∧
      (∀ x, x ≠ st.next → lookupErr st' x = lookupErr st x) ∧
      (WFb st = true → WFb st' = true) := by
  obtain ⟨st', hW, h1, h2, h3, h4⟩ := Wrap_base_spec stack [] st b
  refine ⟨st', ?_, h1, h2, h3, h4⟩
  have hred : Append stack (some (.compound l)) (some (.base b)) st =
      (match Wrap stack (some (.base b)) [] st with
       | .ok (.wrapped a2, st2) => .ok (.compound (l ++ [a2]), st2)
       | .ok (_, _) => .error .typeAssertion
       | .error p => .error p) := rfl
  rw [hred, hW]

theorem appendAll_cons (stack : List Nat) (cur : Option GoErr) (st : St) (b : BaseErr)
    (rest : List BaseErr) :
    appendAll stack cur st (b :: rest) =
      (match Append stack cur (some (.base b)) st with
       | .ok (g, st') => appendAll stack (some g) st' rest
       | .error p => .error p) := rfl

theorem appendAll_compound_spec (stack : List Nat) :
    ∀ (bs : List BaseErr) (l : List Nat) (st : St),
      WFb st = true → (∀ a ∈ l, a < st.next) →
      ∃ l₂ st₂, appendAll stack (some (.compound l)) st bs =
          .ok (some (.compound (l ++ l₂)), st₂) ∧
        WFb st₂ = true ∧ st.next ≤ st₂.next ∧
        (∀ a ∈ l ++ l₂, a < st₂.next) ∧
        (∀ x, x < st.next → lookupErr st₂ x = lookupErr st x) ∧
        List.Forall₂ (fun a b => lookupErr st₂ a = some (.base b)) l₂ bs := by
  intro bs
  induction bs with
  | nil =>
    intro l st hw hb
    exact ⟨[], st, by simp [appendAll], hw, le_refl _, by simpa using hb,
      fun x _ => rfl, List.Forall₂.nil⟩
  | cons b rest ih =>
    intro l st hw hb
    obtain ⟨st', hA, hn, hl, hpres, hwf⟩ := Append_compound_base stack st l b
    have hbound : ∀ a ∈ l ++ [st.next], a < st'.next := by
      intro a ha
      rw [hn]
      rcases List.mem_append.mp ha with h | h
      · exact Nat.lt_succ_of_lt (hb a h)
      · simp at h
        omega
    obtain ⟨l₂, st₂, hRest, hw₂, hle, hb₂, hpres₂, hF⟩ :=
      ih (l ++ [st.next]) st' (hwf hw) hbound
    refine ⟨st.next :: l₂, st₂, ?_, hw₂, ?_, ?_, ?_, ?_⟩
    · rw [appendAll_cons, hA]
      show appendAll stack (some (.compound (l ++ [st.next]))) st' rest =
        .ok (some (.compound (l ++ st.next :: l₂)), st₂)
      rw [hRest, List.append_assoc]
      rfl
    · omega
    · intro a ha
      apply hb₂
      rw [List.append_assoc]
      exact ha
    · intro x hx
      rw [hpres₂ x (by omega), hpres x (by omega)]
    · refine List.Forall₂.cons ?_ hF
      rw [hpres₂ st.next (by omega)]
      exact hl

theorem appendAll_spec (stack : List Nat) (st : St) (b1 b2 : BaseErr) (rest : List BaseErr)
    (hw : WFb st = true) :
    ∃ l st', appendAll stack none st (b1 :: b2 :: rest) = .ok (some (.compound l), st') ∧
      List.Forall₂ (fun a b => lookupErr st' a = some (.base b)) l (b1 :: b2 :: rest) := by
  obtain ⟨st1, hW1, hn1, hl1, hpres1, hwf1⟩ := Wrap_base_spec stack [] st b1
  have hA1 : Append stack none (some (.base b1)) st = .ok (.wrapped st.next, st1) := hW1
  obtain ⟨st2, hA2, hn2, hl2, hpres2, hwf2⟩ := Append_wrapped_base stack st1 st.next b2
  have hbound : ∀ a ∈ [st.next, st1.next], a < st2.next := by
    intro a ha
    simp at ha
    rcases ha with rfl | rfl <;> omega
  obtain ⟨l₂, st₃, hRest, hw₃, hle₃, hb₃, hpres₃, hF⟩ :=
    appendAll_compound_spec stack rest [st.next, st1.next] st2 (hwf2 (hwf1 hw)) hbound
  refine ⟨[st.next, st1.next] ++ l₂, st₃, ?_, ?_⟩
  · rw [appendAll_cons, hA1]
    show appendAll stack (some (.wrapped st.next)) st1 (b2 :: rest) = _
    rw [appendAll_cons, hA2]
    show appendAll stack (some (.compound [st.next, st1.next])) st2 rest = _
    exact hRest
  · have h1 : lookupErr st₃ st.next = some (.base b1) := by
      rw [hpres₃ st.next (by omega), hpres2 st.next (by omega)]
      exact hl1
    have h2 : lookupErr st₃ st1.next = some (.base b2) := by
      rw [hpres₃ st1.next (by omega)]
      exact hl2
    exact List.Forall₂.cons h1 (List.Forall₂.cons h2 hF)

/-! ### Message-rendering lemmas -/

theorem errorMsg_base (fuel : Nat) (st : St) (b : BaseErr) :
    errorMsg fuel st (.base b) = b.msg := by
  cases fuel <;> rfl

theorem errorMsg_two_wrapped (st : St) (a : Nat) :
    errorMsg 2 st (.wrapped a) =
      GetPrefixStr st (.wrapped a) ++
        (match lookupHeap st.heap a with
         | some d => errorMsg 1 st d.err
         | none => "") := rfl

theorem errorMsg_one_wrapped (st : St) (a : Nat) :
    errorMsg 1 st (.wrapped a) =
      GetPrefixStr st (.wrapped a) ++
        (match lookupHeap st.heap a with
         | some d => errorMsg 0 st d.err
         | none => "") := rfl

theorem errorMsg_two_compound (st : St) (l : List Nat) :
    errorMsg 2 st (.compound l) =
      "multiple errors: " ++
        String.intercalate " · " (l.map (fun a => errorMsg 1 st (.wrapped a))) := rfl

theorem errorMsg_two_eq_one_of_innerOk (st : St) (a : Nat) (h : innerOk st a = true) :
    errorMsg 2 st (.wrapped a) = errorMsg 1 st (.wrapped a) := by
  rw [errorMsg_two_wrapped, errorMsg_one_wrapped]
  congr 1
  unfold innerOk at h
  cases hd : lookupHeap st.heap a with
  | none => rfl
  | some d =>
    rw [hd] at h
    have h' : d.err.isBase = true := h
    show errorMsg 1 st d.err = errorMsg 0 st d.err
    cases herr : d.err with
    | base b => rw [errorMsg_base, errorMsg_base]
    | wrapped a2 => rw [herr] at h'; simp [GoErr.isBase] at h'
    | compound l2 => rw [herr] at h'; simp [GoErr.isBase] at h'

theorem ErrorStr_wrapped_of_base (st : St) (a : Nat) (d : WEData) (b : BaseErr)
    (hd : lookupHeap st.heap a = some d) (hberr : d.err = .base b) :
    ErrorStr st (.wrapped a) = GetPrefixStr st (.wrapped a) ++ b.msg := by
  show errorMsg 2 st (.wrapped a) = _
  rw [errorMsg_two_wrapped, hd]
  show GetPrefixStr st (.wrapped a) ++ errorMsg 1 st d.err = _
  rw [hberr, errorMsg_base]

theorem lookupHeap_applyBehavior_some (stack : List Nat) (b : Behavior) (dw : Bool) (a : Nat)
    (st : St) (x : Nat) (d : WEData) (h : lookupHeap st.heap x = some d) :
    ∃ d', lookupHeap (applyBehavior stack b dw a st).heap x = some d' ∧ d'.err = d.err := by
  have he := lookupErr_applyBehavior stack b dw a st x
  unfold lookupErr at he
  rw [h] at he
  cases h' : lookupHeap (applyBehavior stack b dw a st).heap x with
  | none => rw [h'] at he; simp at he
  | some d' =>
    rw [h'] at he
    exact ⟨d', rfl, by simpa using he⟩

theorem GetPrefixStr_after_wrapPrefix (stack : List Nat) (st : St) (a : Nat) (d : WEData)
    (p : String) (hd : lookupHeap st.heap a = some d) :
    ∃ st', Wrap stack (some (.wrapped a)) [.prefixStr p] st = .ok (.wrapped a, st') ∧
      GetPrefixStr st' (.wrapped a) = p ++ ": " ++ GetPrefixStr st (.wrapped a) ∧
      (∀ x, lookupErr st' x = lookupErr st x) := by
  refine ⟨_, Wrap_wrapped stack [.prefixStr p] st a, ?_, ?_⟩
  · have hred : applyBehaviors stack true a
        (.callersB :: .skipB 2 :: [Behavior.prefixStr p]) st =
        applyBehavior stack (.prefixStr p) true a
          (applyBehavior stack (.skipB 2) true a
            (applyBehavior stack .callersB true a st)) := rfl
    rw [hred, skipB_doubleWrap_id]
    have hpc : getMetaAt (applyBehavior stack .callersB true a st) a .prefixKey =
        getMetaAt st a .prefixKey :=
      getMetaAt_callersB_ne stack true a st a .prefixKey (by decide)
    obtain ⟨d', hd', _⟩ := lookupHeap_applyBehavior_some stack .callersB true a st a d hd
    have hset : applyBehavior stack (.prefixStr p) true a
        (applyBehavior stack .callersB true a st) =
        setMetaAt (applyBehavior stack .callersB true a st) a .prefixKey
          (.stringVal (p ++ ": " ++
            GetPrefixStr (applyBehavior stack .callersB true a st) (.wrapped a))) := rfl
    rw [hset, GetPrefixStr_wrapped,
      getMetaAt_setMetaAt_same (applyBehavior stack .callersB true a st) a _ _ d' hd']
    show p ++ ": " ++ GetPrefixStr (applyBehavior stack .callersB true a st) (.wrapped a) =
      p ++ ": " ++ GetPrefixStr st (.wrapped a)
    rw [GetPrefixStr_wrapped, hpc, ← GetPrefixStr_wrapped]
  · intro x
    exact lookupErr_applyBehaviors stack true a _ st x

theorem lookupErr_eq_some (st : St) (a : Nat) (g : GoErr) (h : lookupErr st a = some g) :
    ∃ d, lookupHeap st.heap a = some d ∧ d.err = g := by
  unfold lookupErr at h
  cases h' : lookupHeap st.heap a with
  | none => rw [h'] at h; simp at h
  | some d =>
    rw [h'] at h
    exact ⟨d, rfl, by simpa using h⟩

theorem Unwrap_wrapped_of_lookupErr (st : St) (a : Nat) (g : GoErr)
    (h : lookupErr st a = some g) : Unwrap st (.wrapped a) = g := by
  obtain ⟨d, hd, hderr⟩ := lookupErr_eq_some st a g h
  simp only [Unwrap]
  rw [hd]
  exact hderr

theorem Unwrap_base (st : St) (b : BaseErr) : Unwrap st (.base b) = .base b := rfl

/-! ### The claims -/

/-- C1 (amended): Wrap, MustWrap, Split, and Append (in its `newErr`
argument) raise a panic with the fixed sentinel payload `"nil error"` when
called with a nil error, never returning an absence; an empty Compound
Error is not detected by these nil checks. -/
theorem claim1_nil_sentinel (stack : List Nat) (bs : List Behavior) (st : St)
    (ex : Option GoErr) :
    Wrap stack none bs st = .error (.sentinel "nil error") ∧
    MustWrap stack none bs st = (.sentinel "nil error", st) ∧
    Split none = .error (.sentinel "nil error") ∧
    Append stack ex none st = .error (.sentinel "nil error") :=
  ⟨rfl, rfl, rfl, rfl⟩

/-- C1 (counterexample): on an empty Compound Error the claimed
`"nil error"` panic does not happen — `Split` returns an empty sequence
without panicking, and `Wrap` faults with an index-out-of-range panic, not
the sentinel. -/
theorem claim1_counterexample :
    Split (some (GoErr.compound [])) = .ok [] ∧
    Wrap [] (some (GoErr.compound [])) [] St.empty = .error .indexOutOfRange :=
  ⟨rfl, rfl⟩

/-- C2 (amended): MaybeWrap returns absence exactly when its argument is
nil; on any other argument it behaves as Wrap with one extra Skip(1)
appended (propagating whatever Wrap does, including the index fault on an
empty Compound Error). -/
theorem claim2_maybe_wrap :
    (∀ (stack : List Nat) (bs : List Behavior) (st : St),
      MaybeWrap stack none bs st = .ok (none, st)) ∧
    (∀ (stack : List Nat) (e : GoErr) (bs : List Behavior) (st : St) (g : GoErr) (st' : St),
      Wrap stack (some e) (bs ++ [.skipB 1]) st = .ok (g, st') →
      MaybeWrap stack (some e) bs st = .ok (some g, st')) ∧
    (∀ (stack : List Nat) (e : GoErr) (bs : List Behavior) (st : St) (p : Panic),
      Wrap stack (some e) (bs ++ [.skipB 1]) st = .error p →
      MaybeWrap stack (some e) bs st = .error p) := by
  refine ⟨fun _ _ _ => rfl, ?_, ?_⟩
  · intro stack e bs st g st' h
    show (match Wrap stack (some e) (bs ++ [.skipB 1]) st with
          | .ok (g, st') => Except.ok (some g, st')
          | .error p => Except.error p) = _
    rw [h]
  · intro stack e bs st p h
    show (match Wrap stack (some e) (bs ++ [.skipB 1]) st with
          | .ok (g, st') => Except.ok (some g, st')
          | .error p => Except.error p) = _
    rw [h]

theorem claim2_witness :
    Wrap [] (some (GoErr.base ⟨0, "m"⟩)) ([] ++ [.skipB 1]) St.empty =
      .ok (.wrapped 0, stOf c2wit) ∧
    MaybeWrap [] (some (GoErr.base ⟨0, "m"⟩)) [] St.empty =
      .ok (some (.wrapped 0), stOf c2wit) :=
  ⟨rfl, claim2_maybe_wrap.2.1 [] (GoErr.base ⟨0, "m"⟩) [] St.empty (.wrapped 0) (stOf c2wit) rfl⟩

/-- C2 (counterexample): MaybeWrap on an empty Compound Error does not
return absence — the underlying Wrap faults with an index-out-of-range
panic. -/
theorem claim2_counterexample :
    MaybeWrap [] (some (GoErr.compound [])) [] St.empty = .error .indexOutOfRange := rfl

/-- C4 (amended): for a plain (neither Wrapped nor Compound) error, Wrap
then Unwrap preserves the rendered message. -/
theorem claim4_unwrap_wrap_message (stack : List Nat) (bs : List Behavior) (st st' : St)
    (b : BaseErr) (g : GoErr)
    (h : Wrap stack (some (.base b)) bs st = .ok (g, st')) :
    ErrorStr st' (Unwrap st' g) = ErrorStr st' (.base b) := by
  obtain ⟨stW, hW, _, hl, _, _⟩ := Wrap_base_spec stack bs st b
  rw [hW] at h
  injection h with h'
  have hg : GoErr.wrapped st.next = g := congrArg Prod.fst h'
  have hs : stW = st' := congrArg Prod.snd h'
  subst hg
  subst hs
  rw [Unwrap_wrapped_of_lookupErr stW st.next (.base b) hl]

theorem claim4_witness :
    Wrap [] (some (GoErr.base ⟨0, "m"⟩)) [] St.empty = .ok (.wrapped 0, stOf c4wit) ∧
    ErrorStr (stOf c4wit) (Unwrap (stOf c4wit) (.wrapped 0)) =
      ErrorStr (stOf c4wit) (.base ⟨0, "m"⟩) :=
  ⟨rfl, claim4_unwrap_wrap_message [] [] St.empty (stOf c4wit) ⟨0, "m"⟩ (.wrapped 0) rfl⟩

/-- C4 (counterexample): for an already-Wrapped input carrying a prefix,
`Unwrap(Wrap(e)).Error()` differs from `e.Error()` — Wrap returns the same
instance whose message keeps the prefix, while Unwrap drops it. -/
theorem claim4_counterexample :
    c4w1 = .ok (.wrapped 0, stOf c4w1) ∧
    c4w2 = .ok (.wrapped 0, stOf c4w2) ∧
    ErrorStr (stOf c4w2) (Unwrap (stOf c4w2) (errOf c4w2)) = "test error" ∧
    ErrorStr (stOf c4w2) (errOf c4w2) = "other error: test error" ∧
    ErrorStr (stOf c4w2) (Unwrap (stOf c4w2) (errOf c4w2)) ≠
      ErrorStr (stOf c4w2) (errOf c4w2) :=
  ⟨rfl, rfl, rfl, rfl, by decide⟩

/-- C9: equality is transparent to wrapping — for a plain error `e`, both
`Equals(Wrap(e), e)` and `Equals(e, Wrap(e))` hold, because both the error
and each cause are unwrapped before comparison. -/
theorem claim9_equals_wrap (stack : List Nat) (bs : List Behavior) (st st' : St)
    (b : BaseErr) (g : GoErr)
    (h : Wrap stack (some (.base b)) bs st = .ok (g, st')) :
    Equals st' g [.base b] = true ∧ Equals st' (.base b) [g] = true := by
  obtain ⟨stW, hW, _, hl, _, _⟩ := Wrap_base_spec stack bs st b
  rw [hW] at h
  injection h with h'
  have hg : GoErr.wrapped st.next = g := congrArg Prod.fst h'
  have hs : stW = st' := congrArg Prod.snd h'
  subst hg
  subst hs
  have hu : Unwrap stW (.wrapped st.next) = .base b :=
    Unwrap_wrapped_of_lookupErr stW st.next (.base b) hl
  constructor
  · show Equals stW (.wrapped st.next) [.base b] = true
    simp [Equals, equalsSingle, hu, Unwrap_base]
  · show Equals stW (.base b) [.wrapped st.next] = true
    simp [Equals, equalsSingle, hu, Unwrap_base]

theorem claim9_witness :
    Wrap [] (some (GoErr.base ⟨1, "w"⟩)) [] St.empty = .ok (.wrapped 0, stOf c9wit) ∧
    (Equals (stOf c9wit) (.wrapped 0) [.base ⟨1, "w"⟩] = true ∧
     Equals (stOf c9wit) (.base ⟨1, "w"⟩) [.wrapped 0] = true) :=
  ⟨rfl, claim9_equals_wrap [] [] St.empty (stOf c9wit) ⟨1, "w"⟩ (.wrapped 0) rfl⟩

/-- C10: for a plain (neither Wrapped nor Compound) error, Wrap stores the
argument as the inner cause unchanged, so Unwrap returns the identical
value. -/
theorem claim10_unwrap_identity (stack : List Nat) (bs : List Behavior) (st st' : St)
    (b : BaseErr) (g : GoErr)
    (h : Wrap stack (some (.base b)) bs st = .ok (g, st')) :
    Unwrap st' g = .base b := by
  obtain ⟨stW, hW, _, hl, _, _⟩ := Wrap_base_spec stack bs st b
  rw [hW] at h
  injection h with h'
  have hg : GoErr.wrapped st.next = g := congrArg Prod.fst h'
  have hs : stW = st' := congrArg Prod.snd h'
  subst hg
  subst hs
  exact Unwrap_wrapped_of_lookupErr stW st.next (.base b) hl

theorem claim10_witness :
    Wrap [] (some (GoErr.base ⟨2, "u"⟩)) [] St.empty = .ok (.wrapped 0, stOf c10wit) ∧
    Unwrap (stOf c10wit) (.wrapped 0) = .base ⟨2, "u"⟩ :=
  ⟨rfl, claim10_unwrap_identity [] [] St.empty (stOf c10wit) ⟨2, "u"⟩ (.wrapped 0) rfl⟩

/-- C3: a non-empty Compound Error renders as `"multiple errors: "`
followed by the elements' messages joined with `" · "`; a Wrapped Error
renders as its computed prefix followed by the inner cause's message; and
the concrete Append pipeline on "first error"/"second error" renders
exactly `"multiple errors: first error · second error"`. -/
theorem claim3_message_rendering :
    (∀ (st : St) (l : List Nat), l ≠ [] → (∀ a ∈ l, innerOk st a = true) →
      ErrorStr st (.compound l) =
        "multiple errors: " ++
          String.intercalate " · " (l.map (fun a => ErrorStr st (.wrapped a)))) ∧
    (∀ (st : St) (a : Nat) (d : WEData) (b : BaseErr),
      lookupHeap st.heap a = some d → d.err = .base b →
      ErrorStr st (.wrapped a) = GetPrefixStr st (.wrapped a) ++ b.msg) ∧
    (c3res = .ok (some (.compound [0, 1]), stOfA c3res) ∧
      ErrorStr (stOfA c3res) (.compound [0, 1]) =
        "multiple errors: first error · second error") := by
  refine ⟨?_, ?_, rfl, by decide⟩
  · intro st l _ hok
    show errorMsg 2 st (.compound l) = _
    rw [errorMsg_two_compound]
    congr 2
    apply List.map_congr_left
    intro a ha
    exact (errorMsg_two_eq_one_of_innerOk st a (hok a ha)).symm
  · intro st a d b hd hb
    exact ErrorStr_wrapped_of_base st a d b hd hb

theorem claim3_witness :
    (([0, 1] : List Nat) ≠ [] ∧ (∀ a ∈ ([0, 1] : List Nat), innerOk (stOfA c3res) a = true)) ∧
    ErrorStr (stOfA c3res) (.compound [0, 1]) =
      "multiple errors: " ++
        String.intercalate " · "
          (([0, 1] : List Nat).map (fun a => ErrorStr (stOfA c3res) (.wrapped a))) :=
  ⟨⟨by decide, by decide⟩,
    claim3_message_rendering.1 (stOfA c3res) [0, 1] (by decide) (by decide)⟩

/-- C5: applying Prefix(p1) then Prefix(p2) to a Wrapped Error with no
prior prefix and a plain inner cause yields the message
`p2 ++ ": " ++ p1 ++ ": " ++ original`; concretely, wrapping "test error"
with Prefix("other error") then Prefix("next error") renders exactly
`"next error: other error: test error"`. -/
theorem claim5_prefix_order (stack1 stack2 : List Nat) (st st1 st2 : St) (a : Nat)
    (d : WEData) (b : BaseErr) (p1 p2 : String) (g1 g2 : GoErr)
    (hd : lookupHeap st.heap a = some d) (hberr : d.err = .base b)
    (hp : GetPrefixStr st (.wrapped a) = "")
    (h1 : Wrap stack1 (some (.wrapped a)) [.prefixStr p1] st = .ok (g1, st1))
    (h2 : Wrap stack2 (some g1) [.prefixStr p2] st1 = .ok (g2, st2)) :
    ErrorStr st2 g2 = p2 ++ ": " ++ p1 ++ ": " ++ b.msg ∧
    (c5w2 = .ok (.wrapped 0, stOf c5w2) ∧
      ErrorStr (stOf c5w2) (errOf c5w2) = "next error: other error: test error") := by
  refine ⟨?_, rfl, by decide⟩
  obtain ⟨stA, hWA, hprefA, hpresA⟩ := GetPrefixStr_after_wrapPrefix stack1 st a d p1 hd
  rw [hWA] at h1
  injection h1 with h1'
  have hg1 : GoErr.wrapped a = g1 := congrArg Prod.fst h1'
  have hs1 : stA = st1 := congrArg Prod.snd h1'
  subst hg1
  subst hs1
  have hlA : lookupErr stA a = some (.base b) := by
    rw [hpresA a]
    unfold lookupErr
    rw [hd]
    simp [hberr]
  obtain ⟨dA, hdA, hdAerr⟩ := lookupErr_eq_some stA a (.base b) hlA
  obtain ⟨stB, hWB, hprefB, hpresB⟩ := GetPrefixStr_after_wrapPrefix stack2 stA a dA p2 hdA
  rw [hWB] at h2
  injection h2 with h2'
  have hg2 : GoErr.wrapped a = g2 := congrArg Prod.fst h2'
  have hs2 : stB = st2 := congrArg Prod.snd h2'
  subst hg2
  subst hs2
  have hlB : lookupErr stB a = some (.base b) := by
    rw [hpresB a]
    exact hlA
  obtain ⟨dB, hdB, hdBerr⟩ := lookupErr_eq_some stB a (.base b) hlB
  rw [ErrorStr_wrapped_of_base stB a dB b hdB hdBerr, hprefB, hprefA, hp]
  simp only [String.append_empty, String.append_assoc]

theorem claim5_witness :
    (lookupHeap (stOf c5wit0).heap 0 =
        some ⟨GoErr.base ⟨0, "m"⟩, [(.callersKey, .callersVal [])]⟩ ∧
      GetPrefixStr (stOf c5wit0) (.wrapped 0) = "" ∧
      Wrap [] (some (GoErr.wrapped 0)) [.prefixStr "p1"] (stOf c5wit0) =
        .ok (.wrapped 0, stOf c5wit1) ∧
      Wrap [] (some (GoErr.wrapped 0)) [.prefixStr "p2"] (stOf c5wit1) =
        .ok (.wrapped 0, stOf c5wit2)) ∧
    (ErrorStr (stOf c5wit2) (.wrapped 0) =
        "p2" ++ ": " ++ "p1" ++ ": " ++ (BaseErr.mk 0 "m").msg ∧
      (c5w2 = .ok (.wrapped 0, stOf c5w2) ∧
        ErrorStr (stOf c5w2) (errOf c5w2) = "next error: other error: test error")) :=
  ⟨⟨by decide, by decide, rfl, rfl⟩,
    claim5_prefix_order [] [] (stOf c5wit0) (stOf c5wit1) (stOf c5wit2) 0
      ⟨GoErr.base ⟨0, "m"⟩, [(.callersKey, .callersVal [])]⟩ ⟨0, "m"⟩ "p1" "p2"
      (.wrapped 0) (.wrapped 0) (by decide) rfl (by decide) rfl rfl⟩

/-- C6: splitting a Compound Error built from N (≥ 2) independently
appended plain errors yields exactly N elements in append order, each with
`Unwrap(element)` equal to the original plain error and rendering its
original message; Split of a non-compound, non-nil error returns a
one-element sequence containing that error itself. -/
theorem claim6_append_split (stack : List Nat) (st : St) (bs : List BaseErr)
    (hw : WFb st = true) (hlen : 2 ≤ bs.length) :
    (∃ l st', appendAll stack none st bs = .ok (some (.compound l), st') ∧
      Split (some (.compound l)) = .ok (l.map GoErr.wrapped) ∧
      l.length = bs.length ∧
      List.Forall₂ (fun a b => Unwrap st' (.wrapped a) = .base b ∧
        ErrorStr st' (Unwrap st' (.wrapped a)) = b.msg) l bs) ∧
    (∀ b, Split (some (.base b)) = .ok [.base b]) ∧
    (∀ a, Split (some (.wrapped a)) = .ok [.wrapped a]) := by
  refine ⟨?_, fun b => rfl, fun a => rfl⟩
  match bs, hlen with
  | b1 :: b2 :: rest, _ =>
    obtain ⟨l, st', hEq, hF⟩ := appendAll_spec stack st b1 b2 rest hw
    refine ⟨l, st', hEq, rfl, hF.length_eq, ?_⟩
    refine hF.imp ?_
    intro a b hab
    have hu : Unwrap st' (.wrapped a) = .base b := Unwrap_wrapped_of_lookupErr st' a _ hab
    refine ⟨hu, ?_⟩
    rw [hu]
    exact errorMsg_base 2 st' b

theorem claim6_witness :
    (WFb St.empty = true ∧ 2 ≤ c6bs.length) ∧
    ((∃ l st', appendAll [] none St.empty c6bs = .ok (some (.compound l), st') ∧
      Split (some (.compound l)) = .ok (l.map GoErr.wrapped) ∧
      l.length = c6bs.length ∧
      List.Forall₂ (fun a b => Unwrap st' (.wrapped a) = .base b ∧
        ErrorStr st' (Unwrap st' (.wrapped a)) = b.msg) l c6bs) ∧
    (∀ b, Split (some (.base b)) = .ok [.base b]) ∧
    (∀ a, Split (some (.wrapped a)) = .ok [.wrapped a])) :=
  ⟨⟨rfl, by decide⟩, claim6_append_split [] St.empty c6bs rfl (by decide)⟩

/-- C7: metadata lookup on a Compound Error scans from the last element to
the first and returns the first present value — so a value on the last
element wins over any earlier one, and absence is returned only when no
element carries the key; concretely, GetHTTPStatus returns the 500 on the
later element over the 400 on the earlier one, the 400 when the last
element carries no status, and 0 when no element does. -/
theorem claim7_metadata_scan :
    (∀ (st : St) (l : List Nat) (a : Nat) (k : MetaKey) (v : MetaVal),
      getMetaAt st a k = some v →
      GetMetadata st (.compound (l ++ [a])) k = some v) ∧
    (∀ (st : St) (l : List Nat) (k : MetaKey),
      (∀ a ∈ l, getMetaAt st a k = none) →
      GetMetadata st (.compound l) k = none) ∧
    (c7app = .ok (.compound [0, 1], stOf c7w2) ∧
      GetHTTPStatus (stOf c7w2) (.compound [0, 1]) = 500 ∧
      GetHTTPStatus (stOf c7w3) (.compound [0, 2]) = 400 ∧
      GetHTTPStatus (stOf c7w3) (.compound [2]) = 0) := by
  refine ⟨?_, ?_, rfl, by decide, by decide, by decide⟩
  · intro st l a k v h
    show (l ++ [a]).reverse.findSome? (fun x => getMetaAt st x k) = some v
    rw [List.reverse_append]
    simp [List.findSome?, h]
  · intro st l k h
    show l.reverse.findSome? (fun x => getMetaAt st x k) = none
    rw [List.findSome?_eq_none_iff]
    intro a ha
    exact h a (List.mem_reverse.mp ha)

theorem claim7_witness :
    getMetaAt (stOf c7w2) 1 .httpStatusKey = some (.intVal 500) ∧
    GetMetadata (stOf c7w2) (.compound ([0] ++ [1])) .httpStatusKey = some (.intVal 500) :=
  ⟨by decide,
    claim7_metadata_scan.1 (stOf c7w2) [0] 1 .httpStatusKey (.intVal 500) (by decide)⟩

theorem getMetaAt_callersKey_applyBehavior_safe (stack : List Nat) (b : Behavior) (a : Nat)
    (st : St) (cs : List Nat) (hs : callersSafe b = true)
    (hcs : getMetaAt st a .callersKey = some (.callersVal cs)) :
    getMetaAt (applyBehavior stack b true a st) a .callersKey = some (.callersVal cs) := by
  cases b with
  | metadataB k v =>
    have hk : k ≠ MetaKey.callersKey := by simpa [callersSafe] using hs
    show getMetaAt (setMetaAt st a k v) a .callersKey = _
    rw [getMetaAt_setMetaAt_key_ne st a k .callersKey v a (Ne.symm hk)]
    exact hcs
  | callersB =>
    have hgc : GetCallers st (.wrapped a) = some cs := by
      rw [GetCallers_wrapped, hcs]
    rw [callersB_id_of_present stack true a st cs hgc]
    exact hcs
  | skipB n =>
    rw [skipB_doubleWrap_id]
    exact hcs
  | prefixStr p =>
    show getMetaAt (setMetaAt st a .prefixKey _) a .callersKey = _
    rw [getMetaAt_setMetaAt_key_ne st a _ .callersKey _ a (by decide)]
    exact hcs
  | publicMessageB m =>
    show getMetaAt (setMetaAt st a .publicMessageKey _) a .callersKey = _
    rw [getMetaAt_setMetaAt_key_ne st a _ .callersKey _ a (by decide)]
    exact hcs
  | httpStatusB n =>
    show getMetaAt (setMetaAt st a .httpStatusKey _) a .callersKey = _
    rw [getMetaAt_setMetaAt_key_ne st a _ .callersKey _ a (by decide)]
    exact hcs

theorem getMetaAt_callersKey_applyBehaviors_safe (stack : List Nat) (a : Nat) :
    ∀ (bs : List Behavior) (st : St) (cs : List Nat), bs.all callersSafe = true →
      getMetaAt st a .callersKey = some (.callersVal cs) →
      getMetaAt (applyBehaviors stack true a bs st) a .callersKey =
        some (.callersVal cs) := by
  intro bs
  induction bs with
  | nil => intro st cs _ h; exact h
  | cons b rest ih =>
    intro st cs hall h
    simp only [List.all_cons, Bool.and_eq_true] at hall
    rw [applyBehaviors_cons]
    exact ih _ _ hall.2 (getMetaAt_callersKey_applyBehavior_safe stack b a st cs hall.1 h)

theorem GetCallers_eq_some (st : St) (a : Nat) (cs : List Nat) :
    GetCallers st (.wrapped a) = some cs ↔
      getMetaAt st a .callersKey = some (.callersVal cs) := by
  rw [GetCallers_wrapped]
  cases hk : getMetaAt st a .callersKey with
  | none => simp
  | some v => cases v <;> simp

/-- C8: re-wrapping an already-Wrapped Error returns the same instance
without allocating, mutates only that instance's metadata, and retains the
stored stack trace (for behaviors that do not write the callers key
directly): Callers is a no-op when a trace is stored, and Skip is a no-op
under the doubleWrap flag. -/
theorem claim8_rewrap_in_place (stack : List Nat) (st : St) (a : Nat) (bs : List Behavior)
    (cs : List Nat) (hcs : GetCallers st (.wrapped a) = some cs)
    (hsafe : bs.all callersSafe = true) :
    (∃ st', Wrap stack (some (.wrapped a)) bs st = .ok (.wrapped a, st') ∧
      st'.next = st.next ∧
      GetCallers st' (.wrapped a) = some cs ∧
      (∀ x, lookupErr st' x = lookupErr st x) ∧
      (∀ x, x ≠ a → lookupHeap st'.heap x = lookupHeap st.heap x)) ∧
    applyBehavior stack .callersB true a st = st ∧
    (∀ n, applyBehavior stack (.skipB n) true a st = st) := by
  refine ⟨⟨_, Wrap_wrapped stack bs st a, ?_, ?_, ?_, ?_⟩,
    callersB_id_of_present stack true a st cs hcs,
    fun n => skipB_doubleWrap_id stack n a st⟩
  · exact applyBehaviors_next stack true a _ st
  · rw [GetCallers_eq_some]
    have hall : (Behavior.callersB :: Behavior.skipB 2 :: bs).all callersSafe = true := by
      simp [List.all_cons, callersSafe, hsafe]
    exact getMetaAt_callersKey_applyBehaviors_safe stack a _ st cs hall
      ((GetCallers_eq_some st a cs).mp hcs)
  · intro x
    exact lookupErr_applyBehaviors stack true a _ st x
  · intro x hx
    exact lookupHeap_applyBehaviors_ne stack true a _ st x hx

theorem claim8_witness :
    (GetCallers (stOf c8wit0) (.wrapped 0) = some [] ∧
      ([Behavior.prefixStr "x"].all callersSafe = true)) ∧
    ((∃ st', Wrap [] (some (.wrapped 0)) [Behavior.prefixStr "x"] (stOf c8wit0) =
        .ok (.wrapped 0, st') ∧
      st'.next = (stOf c8wit0).next ∧
      GetCallers st' (.wrapped 0) = some [] ∧
      (∀ x, lookupErr st' x = lookupErr (stOf c8wit0) x) ∧
      (∀ x, x ≠ 0 → lookupHeap st'.heap x = lookupHeap (stOf c8wit0).heap x)) ∧
    applyBehavior [] .callersB true 0 (stOf c8wit0) = stOf c8wit0 ∧
    (∀ n, applyBehavior [] (.skipB n) true 0 (stOf c8wit0) = stOf c8wit0)) :=
  ⟨⟨by decide, by decide⟩,
    claim8_rewrap_in_place [] (stOf c8wit0) 0 [Behavior.prefixStr "x"] [] (by decide)
      (by decide)⟩

end GoErrors
